import Mathlib

/-!
Verification development for the process bottleneck analyzer
(`bottleneck_analyzer.py`): a shallow embedding of the session model
(list of process steps) and its derived metrics, with theorems checking
the specification claims.

Numbers entered in the UI are modelled as rationals; resource counts are
naturals (the resource input has integer step and minimum 1).
-/

namespace ProcessFlow

/-- A process step as stored in `st.session_state.process_steps`:
a dict with keys `name`, `duration`, `resources`, `capacity`.
The capacity field is stored explicitly (it is whatever value the code
put there, which for the add form is `resources / duration` but for the
template buttons is a hard-coded literal). -/
structure ProcessStep where
  name : String
  duration : ℚ
  resources : ℕ
  capacity : ℚ
deriving DecidableEq, Repr

/-- Errors for derived-metric queries, per the error taxonomy of the spec:
an empty model has no bottleneck, and a model with fewer than two steps
has no secondary bottleneck. -/
inductive AnalysisError where
  | EmptyModel
  | InsufficientSteps
deriving DecidableEq, Repr

/-- The add-step form handler: `if step_name:` (empty string is falsy, so
the add is silently skipped), otherwise append a dict with
`capacity = resources / duration`. -/
def addStep (model : List ProcessStep) (name : String) (duration : ℚ)
    (resources : ℕ) : List ProcessStep :=
  if name = "" then model
  else model ++ [{ name := name, duration := duration, resources := resources,
                   capacity := (resources : ℚ) / duration }]

/-- The Clear All Steps button: `st.session_state.process_steps = []`. -/
def clearSteps (_model : List ProcessStep) : List ProcessStep := []

/-- The Remove Selected Step button:
`[s for s in st.session_state.process_steps if s['name'] != step_to_remove]`. -/
def removeStep (model : List ProcessStep) (name : String) : List ProcessStep :=
  model.filter (fun s => s.name ≠ name)

/-- The Load Manufacturing Example button: the literal five-step list,
with the literal capacity values `1.0, 0.67, 0.75, 0.67, 2.0` as they
appear in the source. -/
def manufacturingSteps : List ProcessStep :=
  [ { name := "Cutting", duration := 2, resources := 2, capacity := 1 },
    { name := "Welding", duration := 3, resources := 2, capacity := 67/100 },
    { name := "Assembly", duration := 4, resources := 3, capacity := 75/100 },
    { name := "Testing", duration := 3/2, resources := 1, capacity := 67/100 },
    { name := "Packaging", duration := 1, resources := 2, capacity := 2 } ]

/-- The Load Service Example button: the literal five-step list. -/
def serviceSteps : List ProcessStep :=
  [ { name := "Order Taking", duration := 1, resources := 2, capacity := 2 },
    { name := "Food Preparation", duration := 10, resources := 3, capacity := 3/10 },
    { name := "Cooking", duration := 8, resources := 4, capacity := 1/2 },
    { name := "Quality Check", duration := 1/2, resources := 1, capacity := 2 },
    { name := "Delivery", duration := 2, resources := 5, capacity := 5/2 } ]

/-- `df['capacity'].idxmin()`: the first index attaining the minimum
capacity, together with the step stored there. Pandas `idxmin` returns
the first row label with the minimal value, which on the default range
index is the earliest-inserted minimal step. -/
def idxmin : List ProcessStep → Option (ℕ × ProcessStep)
  | [] => none
  | st :: rest =>
    match idxmin rest with
    | none => some (0, st)
    | some (i, b) => if st.capacity ≤ b.capacity then some (0, st) else some (i + 1, b)

/-- `bottleneck_idx = df['capacity'].idxmin(); bottleneck_step = df.loc[bottleneck_idx]`,
guarded by the `if st.session_state.process_steps:` check in each tab:
an empty model yields no bottleneck (the tab shows a prompt instead). -/
def bottleneck (model : List ProcessStep) : Except AnalysisError ProcessStep :=
  match idxmin model with
  | none => .error .EmptyModel
  | some (_, b) => .ok b

/-- `system_throughput = bottleneck_step['capacity']`. -/
def systemThroughput (model : List ProcessStep) : Except AnalysisError ℚ :=
  (bottleneck model).map (·.capacity)

/-- Round a rational to the nearest integer, halves to even: the rounding
used by `numpy.round` and hence by the `.round(...)` calls in the code. -/
def roundHE (x : ℚ) : ℤ :=
  if x - ⌊x⌋ < 1/2 then ⌊x⌋
  else if 1/2 < x - ⌊x⌋ then ⌊x⌋ + 1
  else if ⌊x⌋ % 2 = 0 then ⌊x⌋ else ⌊x⌋ + 1

/-- `.round(1)`: round to one decimal place (half to even). -/
def round1 (x : ℚ) : ℚ := (roundHE (x * 10) : ℚ) / 10

/-- `.round(3)`: round to three decimal places (half to even). -/
def round3 (x : ℚ) : ℚ := (roundHE (x * 1000) : ℚ) / 1000

/-- `df['utilization'] = (system_throughput / df['capacity'] * 100).round(1)`:
one `(step, utilization)` entry per step in insertion order, guarded by the
non-empty check of the surrounding tab. -/
def utilizationTable (model : List ProcessStep) :
    Except AnalysisError (List (ProcessStep × ℚ)) :=
  match bottleneck model with
  | .error e => .error e
  | .ok b => .ok (model.map (fun st => (st, round1 (b.capacity / st.capacity * 100))))

/-- `cycle_time = 1 / system_throughput if system_throughput > 0 else float('inf')`;
the infinite case is modelled as `none`. -/
def cycleTime (model : List ProcessStep) : Except AnalysisError (Option ℚ) :=
  match bottleneck model with
  | .error e => .error e
  | .ok b => .ok (if 0 < b.capacity then some (1 / b.capacity) else none)

/-- `df_sorted = df.sort_values('capacity')` with the default
`kind='quicksort'`: pandas guarantees that the result is a permutation of
the rows in ascending capacity order, but the default sort kind is
documented as NOT stable, so the relative order of capacity ties is not
determined by the source. The operation is therefore embedded as a relation
holding of every output the library may produce. -/
def IsCapacitySort (model sorted : List ProcessStep) : Prop :=
  List.Perm sorted model ∧
  sorted.Pairwise (fun a b => a.capacity ≤ b.capacity)

/-- `if len(df_sorted) > 1: next_bottleneck = df_sorted.iloc[1]`, applied to
one admissible output of the sort: the second element of that sorted
sequence, or an error when it has fewer than two rows (the warning panel is
simply not rendered). -/
def secondaryBottleneckOf (sorted : List ProcessStep) : Except AnalysisError ProcessStep :=
  match sorted.get? 1 with
  | some st => .ok st
  | none => .error .InsufficientSteps

/-- Stable insertion of a step into a list already sorted by capacity: the
inserted step goes before every later step of equal capacity. Part of the
reference ordering below; not an embedding of the library sort. -/
def insertByCap (st : ProcessStep) : List ProcessStep → List ProcessStep
  | [] => [st]
  | y :: ys => if st.capacity ≤ y.capacity then st :: y :: ys else y :: insertByCap st ys

/-- The reference ordering the claim describes: capacity ascending with ties
kept in insertion order (a stable insertion sort). This follows the claim
wording — it is the comparison point for `IsCapacitySort`, used to express
the claimed tie-break and to characterize the capacities of admissible sort
outputs; it is not the embedding of `sort_values`, whose tie order is
unspecified. -/
def stableSortByCapacity : List ProcessStep → List ProcessStep
  | [] => []
  | x :: xs => insertByCap x (stableSortByCapacity xs)

/-- The Cutting record of the manufacturing example. -/
def mfgCutting : ProcessStep :=
  { name := "Cutting", duration := 2, resources := 2, capacity := 1 }

/-- The Welding record of the manufacturing example. -/
def mfgWelding : ProcessStep :=
  { name := "Welding", duration := 3, resources := 2, capacity := 67/100 }

/-- The Assembly record of the manufacturing example. -/
def mfgAssembly : ProcessStep :=
  { name := "Assembly", duration := 4, resources := 3, capacity := 75/100 }

/-- The Testing record of the manufacturing example. -/
def mfgTesting : ProcessStep :=
  { name := "Testing", duration := 3/2, resources := 1, capacity := 67/100 }

/-- The Packaging record of the manufacturing example. -/
def mfgPackaging : ProcessStep :=
  { name := "Packaging", duration := 1, resources := 2, capacity := 2 }

/-- One row of the CSV data export
(`export_df = df[['name', 'duration', 'resources', 'capacity', 'utilization']]`):
the values written by `to_csv`, with `utilization` the rounded column
computed in the tab and the other columns taken verbatim from the model. -/
structure ExportRow where
  name : String
  duration : ℚ
  resources : ℕ
  capacity : ℚ
  utilization : ℚ
deriving DecidableEq, Repr

/-- The header row of the CSV export, after the column rename. -/
def exportHeader : List String :=
  ["Step Name", "Processing Time (min)", "Resources", "Capacity (units/min)",
   "Utilization (%)"]

/-- The CSV data export of tab 4: one row per step in insertion order, with
the utilization column recomputed from the bottleneck capacity. Guarded by
the same non-empty check as the rest of the tab. -/
def exportTable (model : List ProcessStep) : Except AnalysisError (List ExportRow) :=
  match bottleneck model with
  | .error e => .error e
  | .ok b => .ok (model.map (fun st =>
      { name := st.name, duration := st.duration, resources := st.resources,
        capacity := st.capacity,
        utilization := round1 (b.capacity / st.capacity * 100) }))

/-- Session states reachable through the UI: start empty, then any sequence
of form adds (the duration input clamps at 0.1 and the resources input at 1),
clears, template loads and removals. -/
inductive Reachable : List ProcessStep → Prop where
  | init : Reachable []
  | add (s : List ProcessStep) (n : String) (d : ℚ) (r : ℕ) :
      Reachable s → 1/10 ≤ d → 1 ≤ r → Reachable (addStep s n d r)
  | clear (s : List ProcessStep) : Reachable s → Reachable (clearSteps s)
  | loadMfg (s : List ProcessStep) : Reachable s → Reachable manufacturingSteps
  | loadSvc (s : List ProcessStep) : Reachable s → Reachable serviceSteps
  | remove (s : List ProcessStep) (n : String) : Reachable s → Reachable (removeStep s n)

/-- Session states reachable without ever pressing the Load Manufacturing
Example button (whose hard-coded capacity literals are rounded). -/
inductive ReachableNoMfg : List ProcessStep → Prop where
  | init : ReachableNoMfg []
  | add (s : List ProcessStep) (n : String) (d : ℚ) (r : ℕ) :
      ReachableNoMfg s → 1/10 ≤ d → 1 ≤ r → ReachableNoMfg (addStep s n d r)
  | clear (s : List ProcessStep) : ReachableNoMfg s → ReachableNoMfg (clearSteps s)
  | loadSvc (s : List ProcessStep) : ReachableNoMfg s → ReachableNoMfg serviceSteps
  | remove (s : List ProcessStep) (n : String) : ReachableNoMfg s → ReachableNoMfg (removeStep s n)

/-! ### Lemmas about the argmin computation -/

lemma idxmin_nil : idxmin [] = none := rfl

lemma idxmin_cons (st : ProcessStep) (rest : List ProcessStep) :
    idxmin (st :: rest) =
      match idxmin rest with
      | none => some (0, st)
      | some (i, b) =>
        if st.capacity ≤ b.capacity then some (0, st) else some (i + 1, b) := rfl

lemma idxmin_eq_none_iff (s : List ProcessStep) : idxmin s = none ↔ s = [] := by
  cases s with
  | nil => simp [idxmin_nil]
  | cons st rest =>
    rw [idxmin_cons]
    cases hr : idxmin rest with
    | none => simp
    | some p => obtain ⟨i, b⟩ := p; dsimp; split <;> simp

lemma idxmin_spec (s : List ProcessStep) (i : ℕ) (b : ProcessStep)
    (h : idxmin s = some (i, b)) :
    ∃ hi : i < s.length, s.get ⟨i, hi⟩ = b ∧
      (∀ (j : ℕ) (hj : j < s.length), b.capacity ≤ (s.get ⟨j, hj⟩).capacity) ∧
      (∀ (j : ℕ) (hj : j < s.length), j < i → b.capacity < (s.get ⟨j, hj⟩).capacity) := by
  induction s generalizing i b with
  | nil => simp [idxmin_nil] at h
  | cons st rest ih =>
    rw [idxmin_cons] at h
    cases hr : idxmin rest with
    | none =>
      rw [hr] at h
      obtain ⟨rfl, rfl⟩ : 0 = i ∧ st = b := by
        simpa using h
      have hrest : rest = [] := (idxmin_eq_none_iff rest).mp hr
      subst hrest
      refine ⟨by simp, rfl, ?_, ?_⟩
      · intro j hj
        cases j with
        | zero => simp
        | succ m => simp at hj
      · intro j hj hji
        exact absurd hji (Nat.not_lt_zero j)
    | some p =>
      obtain ⟨j, c⟩ := p
      rw [hr] at h
      dsimp at h
      obtain ⟨hj, hgetj, hmin, hstrict⟩ := ih j c hr
      split at h
      · rename_i hle
        obtain ⟨rfl, rfl⟩ : 0 = i ∧ st = b := by
          simpa using h
        refine ⟨by simp, rfl, ?_, ?_⟩
        · intro k hk
          cases k with
          | zero => simp
          | succ m =>
            rw [List.get_cons_succ]
            exact le_trans hle (hmin m (by simpa using hk))
        · intro k hk hki
          exact absurd hki (Nat.not_lt_zero k)
      · rename_i hlt
        push_neg at hlt
        obtain ⟨rfl, rfl⟩ : j + 1 = i ∧ c = b := by
          simpa using h
        refine ⟨by simpa using hj, by simpa using hgetj, ?_, ?_⟩
        · intro k hk
          cases k with
          | zero => simpa using le_of_lt hlt
          | succ m =>
            rw [List.get_cons_succ]
            exact hmin m (by simpa using hk)
        · intro k hk hki
          cases k with
          | zero => simpa using hlt
          | succ m =>
            rw [List.get_cons_succ]
            exact hstrict m (by simpa using hk) (Nat.lt_of_succ_lt_succ hki)

lemma idxmin_isSome (s : List ProcessStep) (h : s ≠ []) :
    ∃ i b, idxmin s = some (i, b) := by
  cases hm : idxmin s with
  | none => exact absurd ((idxmin_eq_none_iff s).mp hm) h
  | some p => exact ⟨p.1, p.2, by simp [hm]⟩

lemma bottleneck_eq_ok (s : List ProcessStep) (i : ℕ) (b : ProcessStep)
    (h : idxmin s = some (i, b)) : bottleneck s = .ok b := by
  simp [bottleneck, h]

lemma bottleneck_min_mem (s : List ProcessStep) (b : ProcessStep)
    (h : bottleneck s = .ok b) : b ∈ s ∧ ∀ st ∈ s, b.capacity ≤ st.capacity := by
  unfold bottleneck at h
  cases hm : idxmin s with
  | none => rw [hm] at h; exact absurd h (by simp)
  | some p =>
    obtain ⟨i, c⟩ := p
    rw [hm] at h
    obtain rfl : c = b := by simpa using h
    obtain ⟨hi, hget, hmin, -⟩ := idxmin_spec s i c hm
    constructor
    · rw [← hget]; exact List.get_mem s i hi
    · intro st hst
      obtain ⟨⟨j, hj⟩, rfl⟩ := List.mem_iff_get.mp hst
      exact hmin j hj

/-! ### Lemmas about the stable sort -/

lemma insertByCap_cons (st y : ProcessStep) (ys : List ProcessStep) :
    insertByCap st (y :: ys) =
      if st.capacity ≤ y.capacity then st :: y :: ys else y :: insertByCap st ys := rfl

lemma stableSortByCapacity_cons (x : ProcessStep) (xs : List ProcessStep) :
    stableSortByCapacity (x :: xs) = insertByCap x (stableSortByCapacity xs) := rfl

lemma insertByCap_perm (st : ProcessStep) (l : List ProcessStep) :
    List.Perm (insertByCap st l) (st :: l) := by
  induction l with
  | nil => exact List.Perm.refl _
  | cons y ys ih =>
    rw [insertByCap_cons]
    split
    · exact List.Perm.refl _
    · exact (List.Perm.cons y ih).trans (List.Perm.swap st y ys)

lemma stableSortByCapacity_perm (l : List ProcessStep) :
    List.Perm (stableSortByCapacity l) l := by
  induction l with
  | nil => exact List.Perm.refl _
  | cons x xs ih =>
    rw [stableSortByCapacity_cons]
    exact (insertByCap_perm x (stableSortByCapacity xs)).trans (List.Perm.cons x ih)

lemma insertByCap_pairwise (st : ProcessStep) (l : List ProcessStep)
    (h : l.Pairwise (fun a b => a.capacity ≤ b.capacity)) :
    (insertByCap st l).Pairwise (fun a b => a.capacity ≤ b.capacity) := by
  induction l with
  | nil => simp [insertByCap]
  | cons y ys ih =>
    rw [insertByCap_cons]
    rw [List.pairwise_cons] at h
    obtain ⟨hy, hys⟩ := h
    split
    · rename_i hle
      rw [List.pairwise_cons]
      refine ⟨?_, List.pairwise_cons.mpr ⟨hy, hys⟩⟩
      intro z hz
      rcases List.mem_cons.mp hz with rfl | hz2
      · exact hle
      · exact le_trans hle (hy z hz2)
    · rename_i hgt
      push_neg at hgt
      rw [List.pairwise_cons]
      refine ⟨?_, ih hys⟩
      intro z hz
      have hz2 := (insertByCap_perm st ys).mem_iff.mp hz
      rcases List.mem_cons.mp hz2 with rfl | hz3
      · exact le_of_lt hgt
      · exact hy z hz3

lemma stableSortByCapacity_pairwise (l : List ProcessStep) :
    (stableSortByCapacity l).Pairwise (fun a b => a.capacity ≤ b.capacity) := by
  induction l with
  | nil => simp [stableSortByCapacity]
  | cons x xs ih =>
    rw [stableSortByCapacity_cons]
    exact insertByCap_pairwise x _ ih

/-- The head of the stable capacity sort is the earliest-inserted minimal
step, and the rest is the stable sort of the model with that occurrence
removed. -/
lemma stableSortByCapacity_eq_min_cons (s : List ProcessStep) (i : ℕ) (b : ProcessStep)
    (h : idxmin s = some (i, b)) :
    stableSortByCapacity s = b :: stableSortByCapacity (s.eraseIdx i) := by
  induction s generalizing i b with
  | nil => simp [idxmin_nil] at h
  | cons x xs ih =>
    rw [idxmin_cons] at h
    cases hr : idxmin xs with
    | none =>
      rw [hr] at h
      obtain ⟨rfl, rfl⟩ : 0 = i ∧ x = b := by simpa using h
      have hxs : xs = [] := (idxmin_eq_none_iff xs).mp hr
      subst hxs
      rfl
    | some p =>
      obtain ⟨j, c⟩ := p
      rw [hr] at h
      dsimp at h
      split at h
      · rename_i hle
        obtain ⟨rfl, rfl⟩ : 0 = i ∧ x = b := by simpa using h
        calc stableSortByCapacity (x :: xs) = insertByCap x (stableSortByCapacity xs) := rfl
          _ = insertByCap x (c :: stableSortByCapacity (xs.eraseIdx j)) := by rw [ih j c hr]
          _ = x :: c :: stableSortByCapacity (xs.eraseIdx j) := by
              rw [insertByCap_cons, if_pos hle]
          _ = x :: stableSortByCapacity xs := by rw [← ih j c hr]
          _ = x :: stableSortByCapacity ((x :: xs).eraseIdx 0) := rfl
      · rename_i hgt
        obtain ⟨rfl, rfl⟩ : j + 1 = i ∧ c = b := by simpa using h
        calc stableSortByCapacity (x :: xs) = insertByCap x (stableSortByCapacity xs) := rfl
          _ = insertByCap x (c :: stableSortByCapacity (xs.eraseIdx j)) := by rw [ih j c hr]
          _ = c :: insertByCap x (stableSortByCapacity (xs.eraseIdx j)) := by
              rw [insertByCap_cons, if_neg hgt]
          _ = c :: stableSortByCapacity (x :: xs.eraseIdx j) := rfl
          _ = c :: stableSortByCapacity ((x :: xs).eraseIdx (j + 1)) := rfl

/-- Any two capacity-ascending permutations of the same model carry the same
capacity sequence (sorted lists of rationals are unique up to equality), so
the capacities of every admissible `sort_values` output agree position by
position with those of the stable reference ordering. -/
lemma map_capacity_of_isCapacitySort (s sorted : List ProcessStep)
    (h : IsCapacitySort s sorted) :
    sorted.map (fun st => st.capacity) =
      (stableSortByCapacity s).map (fun st => st.capacity) := by
  have hp : List.Perm (sorted.map (fun st => st.capacity))
      ((stableSortByCapacity s).map (fun st => st.capacity)) :=
    (h.1.map _).trans ((stableSortByCapacity_perm s).map _).symm
  have hs1 : (sorted.map (fun st => st.capacity)).Pairwise (fun a b => a ≤ b) :=
    List.pairwise_map.mpr h.2
  have hs2 : ((stableSortByCapacity s).map (fun st => st.capacity)).Pairwise
      (fun a b => a ≤ b) :=
    List.pairwise_map.mpr (stableSortByCapacity_pairwise s)
  exact List.eq_of_perm_of_sorted hp hs1 hs2

/-! ### Lemmas about rounding -/

lemma roundHE_le_ceil (x : ℚ) : roundHE x ≤ ⌈x⌉ := by
  unfold roundHE
  split
  · exact Int.floor_le_ceil x
  · rename_i h1
    push_neg at h1
    have hx : (⌊x⌋ : ℚ) < x := by linarith
    have hle : ⌊x⌋ + 1 ≤ ⌈x⌉ := Int.add_one_le_iff.mpr (Int.lt_ceil.mpr hx)
    split
    · exact hle
    · split
      · exact Int.floor_le_ceil x
      · exact hle

lemma round1_le_100 (x : ℚ) (h : x ≤ 100) : round1 x ≤ 100 := by
  unfold round1
  have h10 : x * 10 ≤ ((1000 : ℤ) : ℚ) := by push_cast; linarith
  have hc : ⌈x * 10⌉ ≤ 1000 := Int.ceil_le.mpr h10
  have hr : roundHE (x * 10) ≤ 1000 := le_trans (roundHE_le_ceil _) hc
  have hq : (roundHE (x * 10) : ℚ) ≤ 1000 := by exact_mod_cast hr
  linarith

lemma roundHE_intCast (n : ℤ) : roundHE (n : ℚ) = n := by
  unfold roundHE
  rw [Int.floor_intCast]
  norm_num

/-! ### Claim theorems -/

/-- C1: For every non-empty model, `bottleneck()` returns the earliest-inserted
step of globally minimum capacity (a stable argmin over the insertion-ordered
sequence), and `system_throughput` equals that step's capacity. -/
theorem C1_bottleneck_stable_argmin (s : List ProcessStep) (h : s ≠ []) :
    ∃ (i : ℕ) (hi : i < s.length),
      bottleneck s = .ok (s.get ⟨i, hi⟩) ∧
      systemThroughput s = .ok (s.get ⟨i, hi⟩).capacity ∧
      (∀ (j : ℕ) (hj : j < s.length),
        (s.get ⟨i, hi⟩).capacity ≤ (s.get ⟨j, hj⟩).capacity) ∧
      (∀ (j : ℕ) (hj : j < s.length), j < i →
        (s.get ⟨i, hi⟩).capacity < (s.get ⟨j, hj⟩).capacity) := by
  obtain ⟨i, b, hm⟩ := idxmin_isSome s h
  obtain ⟨hi, hget, hmin, hstrict⟩ := idxmin_spec s i b hm
  refine ⟨i, hi, ?_, ?_, ?_, ?_⟩
  · rw [hget]; exact bottleneck_eq_ok s i b hm
  · rw [hget]
    simp [systemThroughput, bottleneck_eq_ok s i b hm, Except.map]
  · intro j hj; rw [hget]; exact hmin j hj
  · intro j hj hji; rw [hget]; exact hstrict j hj hji

/-- Witness for C1 at the loaded service example. -/
theorem C1_bottleneck_stable_argmin_witness :
    ∃ (i : ℕ) (hi : i < serviceSteps.length),
      bottleneck serviceSteps = .ok (serviceSteps.get ⟨i, hi⟩) ∧
      systemThroughput serviceSteps = .ok (serviceSteps.get ⟨i, hi⟩).capacity ∧
      (∀ (j : ℕ) (hj : j < serviceSteps.length),
        (serviceSteps.get ⟨i, hi⟩).capacity ≤ (serviceSteps.get ⟨j, hj⟩).capacity) ∧
      (∀ (j : ℕ) (hj : j < serviceSteps.length), j < i →
        (serviceSteps.get ⟨i, hi⟩).capacity < (serviceSteps.get ⟨j, hj⟩).capacity) :=
  C1_bottleneck_stable_argmin serviceSteps (by simp [serviceSteps])

/-- C5: Every derived-metric query on the model left by `clear()` fails with
the explicit `EmptyModel` error: no bottleneck, throughput, utilization table,
cycle time or data export is produced for the empty model (the tabs render a
prompt to add steps instead of computing anything). -/
theorem C5_empty_model_queries_fail (s : List ProcessStep) :
    clearSteps s = [] ∧
    bottleneck (clearSteps s) = .error .EmptyModel ∧
    systemThroughput (clearSteps s) = .error .EmptyModel ∧
    utilizationTable (clearSteps s) = .error .EmptyModel ∧
    cycleTime (clearSteps s) = .error .EmptyModel ∧
    exportTable (clearSteps s) = .error .EmptyModel := by
  refine ⟨rfl, ?_, ?_, ?_, ?_, ?_⟩ <;>
    simp [clearSteps, bottleneck, idxmin_nil, systemThroughput, utilizationTable,
      cycleTime, exportTable, Except.map]

/-- C6: `remove_step(name)` removes every step whose name equals the given
name (a list-comprehension filter), keeps the remaining steps in their
original relative order (the result is a sublist, with multiplicities of the
kept steps unchanged), and is a no-op when no step has that name. -/
theorem C6_removeStep_filters_all (s : List ProcessStep) (n : String) :
    (∀ st ∈ removeStep s n, st.name ≠ n) ∧
    List.Sublist (removeStep s n) s ∧
    (∀ st : ProcessStep, st.name ≠ n → (removeStep s n).count st = s.count st) ∧
    ((∀ st ∈ s, st.name ≠ n) → removeStep s n = s) := by
  refine ⟨?_, ?_, ?_, ?_⟩
  · intro st hst
    have := List.of_mem_filter hst
    simpa using this
  · exact List.filter_sublist s
  · intro st hn
    rw [removeStep, List.count_filter]
    simp [hn]
  · intro hall
    rw [removeStep, List.filter_eq_self]
    intro st hst
    simpa using hall st hst

/-- Witness for C6: removing an absent name from the service example is a
no-op. -/
theorem C6_removeStep_filters_all_witness :
    removeStep serviceSteps "Inspection" = serviceSteps :=
  (C6_removeStep_filters_all serviceSteps "Inspection").2.2.2 (by
    intro st hst
    fin_cases hst <;> simp)

/-- C8: The add form silently ignores an empty step name (the model is
unchanged, nothing is appended), while a non-empty name appends exactly one
step, at the end, with capacity `resources / duration`. -/
theorem C8_addStep_empty_name_ignored (s : List ProcessStep) (n : String)
    (d : ℚ) (r : ℕ) :
    (n = "" → addStep s n d r = s) ∧
    (n ≠ "" → addStep s n d r =
      s ++ [{ name := n, duration := d, resources := r,
              capacity := (r : ℚ) / d }]) := by
  constructor
  · intro h; simp [addStep, h]
  · intro h; simp [addStep, h]

/-- Witness for C8: adding a step with an empty name to the service example
leaves it unchanged. -/
theorem C8_addStep_empty_name_ignored_witness :
    addStep serviceSteps "" 1 1 = serviceSteps :=
  (C8_addStep_empty_name_ignored serviceSteps "" 1 1).1 rfl

/-- C2 counterexample: the claim that every stored capacity equals
`resources / duration` at every reachable session state fails: pressing the
Load Manufacturing Example button yields a reachable state whose Welding step
stores the hard-coded literal `0.67`, while `2 / 3.0` is not `0.67`. -/
theorem C2_capacity_invariant_counterexample :
    Reachable manufacturingSteps ∧
    ¬ (∀ st ∈ manufacturingSteps, st.capacity = (st.resources : ℚ) / st.duration) := by
  refine ⟨Reachable.loadMfg [] Reachable.init, ?_⟩
  intro hall
  have h := hall
    { name := "Welding", duration := 3, resources := 2, capacity := 67/100 }
    (by simp [manufacturingSteps])
  norm_num at h

/-- C2 amended: in every session state reachable without the Load
Manufacturing Example button (form adds, clears, removals, the service
template), every stored capacity equals `resources / duration`; the
manufacturing template instead stores the rounded literal `0.67` for its
Welding and Testing steps. -/
theorem C2_capacity_invariant (s : List ProcessStep) (hs : ReachableNoMfg s) :
    ∀ st ∈ s, st.capacity = (st.resources : ℚ) / st.duration := by
  induction hs with
  | init => intro st hst; simp at hst
  | add s n d r hs hd hr ih =>
    intro st hst
    unfold addStep at hst
    by_cases hn : n = ""
    · rw [if_pos hn] at hst; exact ih st hst
    · rw [if_neg hn] at hst
      rcases List.mem_append.mp hst with h | h
      · exact ih st h
      · simp only [List.mem_singleton] at h
        subst h
        rfl
  | clear s hs ih => intro st hst; simp [clearSteps] at hst
  | loadSvc s hs ih =>
    intro st hst
    simp only [serviceSteps, List.mem_cons, List.not_mem_nil, or_false] at hst
    rcases hst with rfl | rfl | rfl | rfl | rfl <;> norm_num
  | remove s n hs ih =>
    intro st hst
    exact ih st (List.mem_of_mem_filter hst)

/-- Witness for the amended C2 at the Cooking step of the loaded service
example. -/
theorem C2_capacity_invariant_witness :
    ({ name := "Cooking", duration := 8, resources := 4, capacity := 1/2 }
        : ProcessStep).capacity =
      (({ name := "Cooking", duration := 8, resources := 4, capacity := 1/2 }
        : ProcessStep).resources : ℚ) /
      ({ name := "Cooking", duration := 8, resources := 4, capacity := 1/2 }
        : ProcessStep).duration :=
  C2_capacity_invariant serviceSteps
    (ReachableNoMfg.loadSvc [] ReachableNoMfg.init) _ (by simp [serviceSteps])

/-- C3 counterexample: the claim lists the Welding capacity as 0.667, but the
manufacturing preset stores the literal 0.67, and 0.67 is not 0.667. -/
theorem C3_manufacturing_preset_counterexample :
    manufacturingSteps.get? 1 =
      some { name := "Welding", duration := 3, resources := 2, capacity := 67/100 } ∧
    (67 : ℚ)/100 ≠ 667/1000 := by
  exact ⟨rfl, by norm_num⟩

/-- C3 amended: loading the manufacturing preset replaces the model with
exactly the five literal steps Cutting(2.0, 2, 1.0), Welding(3.0, 2, 0.67),
Assembly(4.0, 3, 0.75), Testing(1.5, 1, 0.67), Packaging(1.0, 2, 2.0), in
that order — the two tied capacities are the rounded literal 0.67, not
0.667 — and the bottleneck is Welding, the earliest-inserted (index 1) of
the two 0.67 ties, so the system throughput is 0.67. -/
theorem C3_manufacturing_preset_spec :
    manufacturingSteps =
      [ { name := "Cutting", duration := 2, resources := 2, capacity := 1 },
        { name := "Welding", duration := 3, resources := 2, capacity := 67/100 },
        { name := "Assembly", duration := 4, resources := 3, capacity := 75/100 },
        { name := "Testing", duration := 3/2, resources := 1, capacity := 67/100 },
        { name := "Packaging", duration := 1, resources := 2, capacity := 2 } ] ∧
    idxmin manufacturingSteps =
      some (1, { name := "Welding", duration := 3, resources := 2, capacity := 67/100 }) ∧
    bottleneck manufacturingSteps =
      .ok { name := "Welding", duration := 3, resources := 2, capacity := 67/100 } ∧
    systemThroughput manufacturingSteps = .ok (67/100) := by
  refine ⟨rfl, ?_, ?_, ?_⟩ <;>
    norm_num [manufacturingSteps, idxmin, bottleneck, systemThroughput, Except.map]

/-- C4 counterexample: at the loaded manufacturing example (all capacities
strictly positive), Cutting is not the bottleneck and its utilization,
`system_throughput / capacity * 100 = 0.67 / 1.0 * 100 = 67`, is strictly
below 100 — refuting the claim that non-bottleneck utilization is ≥ 100. -/
theorem C4_utilization_counterexample :
    (∀ st ∈ manufacturingSteps, 0 < st.capacity) ∧
    bottleneck manufacturingSteps =
      .ok { name := "Welding", duration := 3, resources := 2, capacity := 67/100 } ∧
    ({ name := "Cutting", duration := 2, resources := 2, capacity := 1 }
      : ProcessStep) ∈ manufacturingSteps ∧
    ({ name := "Cutting", duration := 2, resources := 2, capacity := 1 }
      : ProcessStep) ≠
      { name := "Welding", duration := 3, resources := 2, capacity := 67/100 } ∧
    ¬ (100 ≤
        ({ name := "Welding", duration := 3, resources := 2, capacity := 67/100 }
          : ProcessStep).capacity /
        ({ name := "Cutting", duration := 2, resources := 2, capacity := 1 }
          : ProcessStep).capacity * 100) := by
  refine ⟨?_, ?_, ?_, ?_, ?_⟩
  · intro st hst
    simp only [manufacturingSteps, List.mem_cons, List.not_mem_nil, or_false] at hst
    rcases hst with rfl | rfl | rfl | rfl | rfl <;> norm_num
  · norm_num [manufacturingSteps, bottleneck, idxmin]
  · simp [manufacturingSteps]
  · simp
  · norm_num

/-- C4 amended: with all capacities strictly positive, every non-bottleneck
step has utilization `system_throughput / capacity * 100` at most 100 (the
claim's inequality direction is reversed; equality can still occur for a
non-bottleneck step tied with the bottleneck capacity). -/
theorem C4_utilization_le_100 (s : List ProcessStep) (b : ProcessStep)
    (hpos : ∀ st ∈ s, 0 < st.capacity) (hb : bottleneck s = .ok b)
    (st : ProcessStep) (hst : st ∈ s) (_hne : st ≠ b) :
    b.capacity / st.capacity * 100 ≤ 100 := by
  have hmin := (bottleneck_min_mem s b hb).2 st hst
  have hpos2 := hpos st hst
  have hratio : b.capacity / st.capacity ≤ 1 := (div_le_one hpos2).mpr hmin
  linarith

/-- Witness for the amended C4: at the loaded service example the bottleneck
is Food Preparation, and the non-bottleneck Cooking step has utilization
`0.3 / 0.5 * 100 = 60 ≤ 100`. -/
theorem C4_utilization_le_100_witness :
    ({ name := "Food Preparation", duration := 10, resources := 3, capacity := 3/10 }
      : ProcessStep).capacity /
    ({ name := "Cooking", duration := 8, resources := 4, capacity := 1/2 }
      : ProcessStep).capacity * 100 ≤ 100 :=
  C4_utilization_le_100 serviceSteps _
    (by
      intro st hst
      simp only [serviceSteps, List.mem_cons, List.not_mem_nil, or_false] at hst
      rcases hst with rfl | rfl | rfl | rfl | rfl <;> norm_num)
    (by norm_num [serviceSteps, bottleneck, idxmin])
    _ (by simp [serviceSteps]) (by simp)

/-- C7 counterexample: the claim specifies the returned step
deterministically, as index 1 of the capacity-ascending sort with ties
broken by insertion order. The source sorts with `sort_values('capacity')`
under the default `kind='quicksort'`, which pandas documents as not stable,
so every capacity-ascending permutation is an admissible output. At the
loaded manufacturing example the order Testing, Welding, Assembly, Cutting,
Packaging is admissible and yields Welding at index 1, while the claimed
stable tie-break (exhibited by the stable reference ordering, also
admissible) designates Testing — a different step. -/
theorem C7_secondary_stability_counterexample :
    IsCapacitySort manufacturingSteps
      [mfgTesting, mfgWelding, mfgAssembly, mfgCutting, mfgPackaging] ∧
    secondaryBottleneckOf
      [mfgTesting, mfgWelding, mfgAssembly, mfgCutting, mfgPackaging] =
      .ok mfgWelding ∧
    stableSortByCapacity manufacturingSteps =
      [mfgWelding, mfgTesting, mfgAssembly, mfgCutting, mfgPackaging] ∧
    secondaryBottleneckOf (stableSortByCapacity manufacturingSteps) =
      .ok mfgTesting ∧
    mfgWelding ≠ mfgTesting := by
  have hsort : stableSortByCapacity manufacturingSteps =
      [mfgWelding, mfgTesting, mfgAssembly, mfgCutting, mfgPackaging] := by
    norm_num [manufacturingSteps, stableSortByCapacity, insertByCap,
      mfgCutting, mfgWelding, mfgAssembly, mfgTesting, mfgPackaging]
  refine ⟨⟨?_, ?_⟩, rfl, hsort, ?_, ?_⟩
  · exact ((List.Perm.cons mfgCutting
        (@List.perm_middle _ mfgTesting [mfgWelding, mfgAssembly]
          [mfgPackaging])).trans
      ((List.Perm.swap mfgTesting mfgCutting
          [mfgWelding, mfgAssembly, mfgPackaging]).trans
        (List.Perm.cons mfgTesting
          (@List.perm_middle _ mfgCutting [mfgWelding, mfgAssembly]
            [mfgPackaging]).symm))).symm
  · norm_num [List.pairwise_cons, mfgCutting, mfgWelding, mfgAssembly,
      mfgTesting, mfgPackaging]
  · rw [hsort]
    rfl
  · simp [mfgWelding, mfgTesting]

/-- C7 (amended): for every admissible output of `sort_values('capacity')`
(any capacity-ascending permutation of the model), when the model has at
least two steps the query returns the step at index 1 of that output, which
is a step of the model whose capacity is the second-lowest: it equals the
minimum capacity of the model with the bottleneck occurrence (the stable
argmin) removed. Which of several capacity-tied steps is returned is not
determined by the source, since the default sort kind is not stable. With
fewer than two steps every admissible outcome is the `InsufficientSteps`
error. -/
theorem C7_secondary_second_lowest (s sorted : List ProcessStep)
    (hs : IsCapacitySort s sorted) :
    (s.length < 2 → secondaryBottleneckOf sorted = .error .InsufficientSteps) ∧
    (2 ≤ s.length →
      ∃ st : ProcessStep, secondaryBottleneckOf sorted = .ok st ∧ st ∈ s ∧
        ∃ (i : ℕ) (hi : i < s.length),
          bottleneck s = .ok (s.get ⟨i, hi⟩) ∧
          (∃ (j : ℕ) (hj : j < (s.eraseIdx i).length),
            st.capacity = ((s.eraseIdx i).get ⟨j, hj⟩).capacity) ∧
          (∀ (k : ℕ) (hk : k < (s.eraseIdx i).length),
            st.capacity ≤ ((s.eraseIdx i).get ⟨k, hk⟩).capacity)) := by
  have hlen : sorted.length = s.length := hs.1.length_eq
  constructor
  · intro h2
    unfold secondaryBottleneckOf
    have hnone : sorted.get? 1 = none := List.get?_len_le (by omega)
    rw [hnone]
  · intro h2
    have h1lt : 1 < sorted.length := by omega
    have hget1 : sorted.get? 1 = some (sorted.get ⟨1, h1lt⟩) :=
      List.get?_eq_get h1lt
    have hne : s ≠ [] := by intro h; subst h; simp at h2
    obtain ⟨i, b, hm⟩ := idxmin_isSome s hne
    obtain ⟨hi, hgetb, -, -⟩ := idxmin_spec s i b hm
    have hstable := stableSortByCapacity_eq_min_cons s i b hm
    have hlen1 : (s.eraseIdx i).length = s.length - 1 :=
      List.length_eraseIdx_of_lt hi
    have hne2 : s.eraseIdx i ≠ [] := by
      intro h
      rw [h] at hlen1
      simp at hlen1
      omega
    obtain ⟨j, c, hm2⟩ := idxmin_isSome (s.eraseIdx i) hne2
    obtain ⟨hj, hgetc, hmin2, -⟩ := idxmin_spec (s.eraseIdx i) j c hm2
    have hstable2 := stableSortByCapacity_eq_min_cons (s.eraseIdx i) j c hm2
    have hcaps := map_capacity_of_isCapacitySort s sorted hs
    have hc1 : (sorted.get ⟨1, h1lt⟩).capacity = c.capacity := by
      have e1 : (sorted.map (fun st => st.capacity)).get? 1 =
          some (sorted.get ⟨1, h1lt⟩).capacity := by
        rw [List.get?_map, hget1]
        rfl
      have e2 : ((stableSortByCapacity s).map (fun st => st.capacity)).get? 1 =
          some c.capacity := by
        rw [hstable, hstable2]
        rfl
      rw [hcaps] at e1
      exact Option.some.inj (e1.symm.trans e2)
    refine ⟨sorted.get ⟨1, h1lt⟩, ?_, ?_, i, hi, ?_, ⟨j, hj, ?_⟩, ?_⟩
    · unfold secondaryBottleneckOf
      rw [hget1]
    · exact hs.1.mem_iff.mp (List.get_mem sorted 1 h1lt)
    · rw [hgetb]; exact bottleneck_eq_ok s i b hm
    · rw [hc1, hgetc]
    · intro k hk
      rw [hc1]
      exact hmin2 k hk

/-- Witness for the amended C7: the stable reference order of the
manufacturing example is itself an admissible sort output, and the model
has at least two steps. -/
theorem C7_secondary_second_lowest_witness :
    (manufacturingSteps.length < 2 →
      secondaryBottleneckOf
        [mfgWelding, mfgTesting, mfgAssembly, mfgCutting, mfgPackaging] =
        .error .InsufficientSteps) ∧
    (2 ≤ manufacturingSteps.length →
      ∃ st : ProcessStep,
        secondaryBottleneckOf
          [mfgWelding, mfgTesting, mfgAssembly, mfgCutting, mfgPackaging] =
          .ok st ∧
        st ∈ manufacturingSteps ∧
        ∃ (i : ℕ) (hi : i < manufacturingSteps.length),
          bottleneck manufacturingSteps =
            .ok (manufacturingSteps.get ⟨i, hi⟩) ∧
          (∃ (j : ℕ) (hj : j < (manufacturingSteps.eraseIdx i).length),
            st.capacity =
              ((manufacturingSteps.eraseIdx i).get ⟨j, hj⟩).capacity) ∧
          (∀ (k : ℕ) (hk : k < (manufacturingSteps.eraseIdx i).length),
            st.capacity ≤
              ((manufacturingSteps.eraseIdx i).get ⟨k, hk⟩).capacity)) :=
  C7_secondary_second_lowest manufacturingSteps
    [mfgWelding, mfgTesting, mfgAssembly, mfgCutting, mfgPackaging]
    ⟨((List.Perm.swap mfgWelding mfgCutting
          [mfgAssembly, mfgTesting, mfgPackaging]).trans
        ((List.Perm.cons mfgWelding (List.Perm.cons mfgCutting
            (@List.perm_middle _ mfgTesting [mfgAssembly] [mfgPackaging]))).trans
          ((List.Perm.cons mfgWelding
              (List.Perm.swap mfgTesting mfgCutting
                [mfgAssembly, mfgPackaging])).trans
            (List.Perm.cons mfgWelding (List.Perm.cons mfgTesting
              (@List.perm_middle _ mfgCutting [mfgAssembly]
                [mfgPackaging]).symm))))).symm,
     by norm_num [List.pairwise_cons, mfgCutting, mfgWelding, mfgAssembly,
       mfgTesting, mfgPackaging]⟩

/-- C9 counterexample: the CSV export writes the stored full-precision
capacity, not a 3-decimal rendering. Adding the single step Milling
(duration 3, resources 2) gives capacity `2/3`; the exported capacity field
is exactly `2/3`, which is not expressible with 3 decimal places (it is not
an integer multiple of 1/1000) and differs from its 3-decimal rounding
0.667. -/
theorem C9_export_format_counterexample :
    exportTable (addStep [] "Milling" 3 2) =
      .ok [{ name := "Milling", duration := 3, resources := 2,
             capacity := 2/3, utilization := 100 }] ∧
    ¬ (∃ k : ℤ, ((2 : ℚ)/3) = (k : ℚ) / 1000) ∧
    round3 ((2 : ℚ)/3) ≠ (2 : ℚ)/3 := by
  refine ⟨?_, ?_, ?_⟩
  · have h1 : addStep [] "Milling" 3 2 =
        [{ name := "Milling", duration := 3, resources := 2, capacity := (2:ℚ)/3 }] := by
      simp [addStep]
    rw [h1]
    norm_num [exportTable, bottleneck, idxmin, round1, roundHE]
  · rintro ⟨k, hk⟩
    have h2 : (2000 : ℚ) = 3 * (k : ℚ) := by
      field_simp at hk
      linarith
    have h3 : (2000 : ℤ) = 3 * k := by exact_mod_cast h2
    omega
  · norm_num [round3, roundHE]

/-- C9 amended: the data export has exactly the five claimed columns, one
row per step in insertion order; each row carries the step's name, its
duration and capacity at full stored precision (no 1-decimal or 3-decimal
formatting is applied to them), its resources, and its utilization rounded
to 1 decimal place. -/
theorem C9_export_spec (s : List ProcessStep) (b : ProcessStep)
    (hb : bottleneck s = .ok b) :
    exportHeader = ["Step Name", "Processing Time (min)", "Resources",
      "Capacity (units/min)", "Utilization (%)"] ∧
    ∃ rows : List ExportRow, exportTable s = .ok rows ∧
      rows.length = s.length ∧
      ∀ i : ℕ, rows.get? i = (s.get? i).map (fun st =>
        { name := st.name, duration := st.duration, resources := st.resources,
          capacity := st.capacity,
          utilization := round1 (b.capacity / st.capacity * 100) }) := by
  refine ⟨rfl, ?_⟩
  unfold exportTable
  rw [hb]
  refine ⟨_, rfl, by simp, ?_⟩
  intro i
  rw [List.get?_map]

/-- Witness for the amended C9 on the one-step model obtained by adding
Brewing (duration 5, resources 4). -/
theorem C9_export_spec_witness :
    exportHeader = ["Step Name", "Processing Time (min)", "Resources",
      "Capacity (units/min)", "Utilization (%)"] ∧
    ∃ rows : List ExportRow, exportTable (addStep [] "Brewing" 5 4) = .ok rows ∧
      rows.length = (addStep [] "Brewing" 5 4).length ∧
      ∀ i : ℕ, rows.get? i = ((addStep [] "Brewing" 5 4).get? i).map (fun st =>
        { name := st.name, duration := st.duration, resources := st.resources,
          capacity := st.capacity,
          utilization := round1
            (({ name := "Brewing", duration := 5, resources := 4,
                capacity := (4 : ℚ)/5 } : ProcessStep).capacity /
              st.capacity * 100) }) :=
  C9_export_spec (addStep [] "Brewing" 5 4)
    { name := "Brewing", duration := 5, resources := 4, capacity := (4 : ℚ)/5 }
    (by norm_num [addStep, bottleneck, idxmin])

/-- C10 (implicit): for a model whose capacities are all strictly positive,
every utilization entry the code computes — rounded to 1 decimal place — is
at most 100.0, because the system throughput is the minimum capacity. -/
theorem C10_utilization_rounded_le_100 (s : List ProcessStep)
    (tbl : List (ProcessStep × ℚ)) (hpos : ∀ st ∈ s, 0 < st.capacity)
    (htbl : utilizationTable s = .ok tbl) (p : ProcessStep × ℚ) (hp : p ∈ tbl) :
    p.2 ≤ 100 := by
  unfold utilizationTable at htbl
  cases hb : bottleneck s with
  | error e => rw [hb] at htbl; exact absurd htbl (by simp)
  | ok b =>
    rw [hb] at htbl
    have htbl2 : s.map (fun st => (st, round1 (b.capacity / st.capacity * 100))) = tbl := by
      simpa using htbl
    subst htbl2
    obtain ⟨st, hst, rfl⟩ := List.mem_map.mp hp
    have hmin := (bottleneck_min_mem s b hb).2 st hst
    have hpos2 := hpos st hst
    have hratio : b.capacity / st.capacity ≤ 1 := (div_le_one hpos2).mpr hmin
    exact round1_le_100 _ (by linarith)

/-- Witness for C10: the rounded utilization of the Delivery step of the
service example, 12.0, is at most 100. -/
theorem C10_utilization_rounded_le_100_witness :
    (({ name := "Delivery", duration := 2, resources := 5, capacity := 5/2 }
        : ProcessStep), (12 : ℚ)).2 ≤ 100 :=
  C10_utilization_rounded_le_100 serviceSteps
    [ ({ name := "Order Taking", duration := 1, resources := 2, capacity := 2 }, 15),
      ({ name := "Food Preparation", duration := 10, resources := 3, capacity := 3/10 }, 100),
      ({ name := "Cooking", duration := 8, resources := 4, capacity := 1/2 }, 60),
      ({ name := "Quality Check", duration := 1/2, resources := 1, capacity := 2 }, 15),
      ({ name := "Delivery", duration := 2, resources := 5, capacity := 5/2 }, 12) ]
    (by
      intro st hst
      simp only [serviceSteps, List.mem_cons, List.not_mem_nil, or_false] at hst
      rcases hst with rfl | rfl | rfl | rfl | rfl <;> norm_num)
    (by norm_num [serviceSteps, utilizationTable, bottleneck, idxmin, round1, roundHE])
    _ (by simp)

end ProcessFlow
